import Mathlib

/-!
Verification model of `d2b` (src/src/main.rs): a resolver turning DOI /
arXiv identifier strings into BibTeX records.

The regex patterns of `main.rs` are embedded as a small regex AST with a
backtracking matcher implementing the regex crate's leftmost-first match
semantics (alternation prefers the left branch, greedy quantifiers prefer
more iterations, lazy quantifiers prefer fewer).  Character classes
`\d`, `\w`, `\s` are modelled by their ASCII meaning (Lean's `Char.isDigit`
etc.); every input relevant to the claims is ASCII.  `clap::Error::exit`
(process exit with a message) is modelled as `Failure.exit msg`; a Rust
`panic!` (failed `assert!`, out-of-bounds index, `unwrap` on `None`,
`ArrayVec` capacity overflow) is modelled as `Failure.panic`.
-/

namespace D2b

/-- Terminal outcomes of the Rust program: `Error::with_description(..).exit()`
carries a user-visible message, a panic does not. -/
inductive Failure where
  | exit (msg : String)
  | panic
  deriving DecidableEq, Repr

/-- Regex AST covering the constructs used by the six patterns in `main.rs`:
single-character classes, concatenation, alternation, `?`, greedy `*`/`+`
and lazy `*?`/`+?` (`+` is encoded as `r · r*`), counted repetition
(encoded via copies and `?`). -/
inductive RE where
  | eps
  | ch (p : Char → Bool)
  | seq (a b : RE)
  | alt (a b : RE)
  | opt (a : RE)
  | star (a : RE)
  | starL (a : RE)

/-- Structural size of a pattern, used to compute a sufficient fuel bound. -/
def RE.size : RE → Nat
  | .eps => 1
  | .ch _ => 1
  | .seq a b => a.size + b.size + 1
  | .alt a b => a.size + b.size + 1
  | .opt a => a.size + 1
  | .star a => a.size + 1
  | .starL a => a.size + 1

/-- Backtracking matcher: `sfx fuel re s` is the list of suffixes of `s`
remaining after a match of `re` at the start of `s`, in the regex crate's
leftmost-first preference order (first element = preferred match).
Star iterations are required to consume at least one character, as in the
regex crate; `fuel` only bounds the recursion and is set large enough by
`matchAt` that it is never exhausted. -/
def sfx : Nat → RE → List Char → List (List Char)
  | 0, _, _ => []
  | _ + 1, .eps, s => [s]
  | _ + 1, .ch _, [] => []
  | _ + 1, .ch p, c :: rest => if p c then [rest] else []
  | f + 1, .seq a b, s => (sfx f a s).flatMap (fun t => sfx f b t)
  | f + 1, .alt a b, s => sfx f a s ++ sfx f b s
  | f + 1, .opt a, s => sfx f a s ++ [s]
  | f + 1, .star a, s =>
      ((sfx f a s).filter (fun t => t.length < s.length)).flatMap
        (fun t => sfx f (.star a) t) ++ [s]
  | f + 1, .starL a, s =>
      s :: ((sfx f a s).filter (fun t => t.length < s.length)).flatMap
        (fun t => sfx f (.starL a) t)

/-- Fuel sufficient for `sfx`: each unit of structural descent or star
iteration consumes one step, bounded by pattern size per consumed char. -/
def fuelFor (re : RE) (s : List Char) : Nat :=
  (re.size + 2) * (s.length + 2)

/-- Length of the preferred match of `re` at the start of `s`
(`None` when `re` does not match at the start). -/
def matchAt (re : RE) (s : List Char) : Option Nat :=
  match (sfx (fuelFor re s) re s).head? with
  | some t => some (s.length - t.length)
  | none => none

/-- Leftmost-first search, as `Regex::captures` followed by
`.get(0).unwrap().as_str()`: the text of the match of `re` starting at the
earliest position of `s`, the preferred match at that position. -/
def findMatchList (re : RE) : List Char → Option (List Char)
  | [] =>
    match matchAt re [] with
    | some n => some (List.take n ([] : List Char))
    | none => none
  | c :: rest =>
    match matchAt re (c :: rest) with
    | some n => some (List.take n (c :: rest))
    | none => findMatchList re rest

/-- `Regex::is_match`. -/
def isMatch (re : RE) (s : List Char) : Bool :=
  (findMatchList re s).isSome

/-! Pattern constructors. -/

/-- A literal character. -/
def lit (c : Char) : RE := .ch (fun c' => c' = c)

/-- An ASCII-case-insensitive literal character (for the `(?i)` block of
`ARXIV_IDENT_RE`). -/
def ciLit (c : Char) : RE := .ch (fun c' => c'.toLower = c)

/-- Concatenation of a list of patterns. -/
def seqList (l : List RE) : RE := l.foldr RE.seq RE.eps

/-- `\d` (ASCII model of the crate's digit class). -/
def dCh : RE := .ch Char.isDigit

/-- `\w` (ASCII model: `[A-Za-z0-9_]`). -/
def wCh : RE := .ch (fun c => c.isAlphanum || c = '_')

/-- `\s` (ASCII whitespace model). -/
def sCh : RE := .ch Char.isWhitespace

/-- `.` — any character except a newline. -/
def anyCh : RE := .ch (fun c => c ≠ '\n')

/-- Greedy `+`, encoded as `r · r*`. -/
def plus (r : RE) : RE := .seq r (.star r)

/-- Lazy `+?`, encoded as `r · r*?`. -/
def plusL (r : RE) : RE := .seq r (.starL r)

/-- `r{n}`: exactly `n` copies. -/
def repExact (r : RE) (n : Nat) : RE := seqList (List.replicate n r)

/-- `r{lo,hi}` greedy, encoded as `lo` copies followed by `hi - lo`
greedy optionals (equivalent to counted greedy repetition for
single-character-class bodies, which is the only use here). -/
def repRange (r : RE) (lo hi : Nat) : RE :=
  .seq (repExact r lo) (seqList (List.replicate (hi - lo) (.opt r)))

/-! The six patterns of `main.rs`. -/

/-- `doi(?::|.org)` -/
def DOI_IDENT_RE : RE :=
  seqList [lit 'd', lit 'o', lit 'i',
    .alt (lit ':') (seqList [anyCh, lit 'o', lit 'r', lit 'g'])]

/-- `(?i)arxiv(?-i)(?::|.org)` -/
def ARXIV_IDENT_RE : RE :=
  seqList [ciLit 'a', ciLit 'r', ciLit 'x', ciLit 'i', ciLit 'v',
    .alt (lit ':') (seqList [anyCh, lit 'o', lit 'r', lit 'g'])]

/-- The character class `[-\._;()/:\w\d]` of the general DOI pattern. -/
def doiCls : RE :=
  .ch (fun c => c = '-' || c = '.' || c = '_' || c = ';' || c = '(' ||
    c = ')' || c = '/' || c = ':' || c.isAlphanum || c = '_' || c.isDigit)

/-- `10.\d{4,9}/[-\._;()/:\w\d]+` (general DOI shape). -/
def doiGeneralRE : RE :=
  seqList [lit '1', lit '0', anyCh, repRange dCh 4 9, lit '/', plus doiCls]

/-- `10.1002/[^\s]+` (Wiley exception). -/
def doiWileyRE : RE :=
  seqList [lit '1', lit '0', anyCh, lit '1', lit '0', lit '0', lit '2',
    lit '/', plus (.ch (fun c => !c.isWhitespace))]

/-- `DOI_RE`, in declaration order. -/
def DOI_RE : List RE := [doiGeneralRE, doiWileyRE]

/-- `\d{4}\.\d{4,5}(?:v\d+)?` (modern arXiv id). -/
def arxivModernRE : RE :=
  seqList [repExact dCh 4, lit '.', repRange dCh 4 5,
    .opt (.seq (lit 'v') (plus dCh))]

/-- `[a-z]+(?:-[a-z]+)?/\d{7}(?:v\d+)?` (legacy arXiv id). -/
def arxivLegacyRE : RE :=
  seqList [plus (.ch Char.isLower),
    .opt (.seq (lit '-') (plus (.ch Char.isLower))),
    lit '/', repExact dCh 7, .opt (.seq (lit 'v') (plus dCh))]

/-- `ARXIV_RE`, in declaration order. -/
def ARXIV_RE : List RE := [arxivModernRE, arxivLegacyRE]

/-- `,(\s?\w+=\{.+?\})` (`DOI_FMT`); the capture group is everything after
the leading comma. -/
def DOI_FMT : RE :=
  .seq (lit ',')
    (seqList [.opt sCh, plus wCh, lit '=', lit '\x7b', plusL anyCh,
      lit '\x7d'])

/-! `extract_id`. -/

/-- `str::trim_end_matches("/")`: drop every trailing `/`. -/
def trimEndSlashes (l : List Char) : List Char :=
  (l.reverse.dropWhile (fun c => c = '/')).reverse

/-- `extract_id`: run every pattern of the set, collecting each pattern's
leftmost match.  The Rust code collects these into an `ArrayVec<_, 1>`,
which panics (`capacity exceeded in extend/from_iter`) when two patterns
match; with no match it exits with "Invalid DOI or arXiv ID!"; otherwise it
returns the single match with trailing slashes trimmed. -/
def extract_id (re_arr : List RE) (pat : String) : Except Failure String :=
  let m := re_arr.filterMap (fun re => findMatchList re pat.data)
  if m.length > 1 then .error .panic
  else
    match m with
    | [] => .error (.exit "Invalid DOI or arXiv ID!")
    | t :: _ => .ok (String.mk (trimEndSlashes t))

instance {ε α : Type} [DecidableEq ε] [DecidableEq α] :
    DecidableEq (Except ε α) := fun a b =>
  match a, b with
  | .ok x, .ok y => decidable_of_iff (x = y) (by simp)
  | .error x, .error y => decidable_of_iff (x = y) (by simp)
  | .ok _, .error _ => isFalse (by simp)
  | .error _, .ok _ => isFalse (by simp)

/-! `print_doi` and its string helpers. -/

/-- `str::trim`: drop whitespace from both ends. -/
def trimChars (l : List Char) : List Char :=
  ((l.dropWhile Char.isWhitespace).reverse.dropWhile Char.isWhitespace).reverse

/-- The replacement text `",\n  $1"` for a `DOI_FMT` match `m`: since the
pattern is a comma followed by the capture group, group 1 is the match
without its leading comma. -/
def fmtRepl (m : List Char) : List Char :=
  ',' :: '\n' :: ' ' :: ' ' :: m.drop 1

/-- `DOI_FMT.replace_all(input, ",\n  $1")`, fuelled with one unit per
character so that it is structurally recursive and kernel-computable: scan
left to right, replacing each leftmost non-overlapping match and resuming
after it.  A `DOI_FMT` match always consumes at least its leading comma, so
the `.max 1` never changes the amount consumed and the fuel supplied by
`replaceAllFMT` can never run out. -/
def replaceAllFMTGo : Nat → List Char → List Char
  | _, [] => []
  | 0, l => l
  | f + 1, c :: rest =>
    match matchAt DOI_FMT (c :: rest) with
    | some n =>
        fmtRepl ((c :: rest).take n) ++ replaceAllFMTGo f ((c :: rest).drop (n.max 1))
    | none => c :: replaceAllFMTGo f rest

/-- `DOI_FMT.replace_all(input, ",\n  $1")`. -/
def replaceAllFMT (l : List Char) : List Char :=
  replaceAllFMTGo l.length l

/-- `str::replace("}}", "}\n}")`: non-overlapping left-to-right. -/
def replaceBrace : List Char → List Char
  | '\x7d' :: '\x7d' :: rest => '\x7d' :: '\n' :: '\x7d' :: replaceBrace rest
  | c :: rest => c :: replaceBrace rest
  | [] => []

/-- `print_doi`: `DOI_FMT.replace_all(input.trim(), ",\n  $1").replace("}}", "}\n}")`. -/
def print_doi (input : String) : String :=
  String.mk (replaceBrace (replaceAllFMT (trimChars input.data)))

/-! Substring containment (`str::contains`). -/

/-- Whether `pat` is a prefix of `hay`. -/
def startsWithL : List Char → List Char → Bool
  | _, [] => true
  | [], _ :: _ => false
  | c :: cs, p :: ps => c = p && startsWithL cs ps

/-- Whether `pat` occurs as a contiguous substring of `hay`. -/
def containsSub (hay pat : List Char) : Bool :=
  startsWithL hay pat ||
    match hay with
    | [] => false
    | _ :: rest => containsSub rest pat

/-! Classification (the body of `get_bibtex`) and the batch runner's
pattern preparation (from `main`). -/

/-- The two identifier kinds. -/
inductive IdType where
  | Doi
  | Arxiv
  deriving DecidableEq, Repr

/-- The classification block of `get_bibtex`: DOI identity marker or DOI
shape first, then arXiv identity marker or arXiv shape, else exit with
"Please enter a valid DOI or arXiv ID!". -/
def classify_extract (pat : String) : Except Failure (String × IdType) :=
  if isMatch DOI_IDENT_RE pat.data || DOI_RE.any (fun re => isMatch re pat.data) then
    (extract_id DOI_RE pat).map (fun id => (id, IdType.Doi))
  else if isMatch ARXIV_IDENT_RE pat.data || ARXIV_RE.any (fun re => isMatch re pat.data) then
    (extract_id ARXIV_RE pat).map (fun id => (id, IdType.Arxiv))
  else .error (.exit "Please enter a valid DOI or arXiv ID!")

/-- `Vec::dedup`: remove consecutive duplicates. -/
def dedupAdjacent : List String → List String
  | [] => []
  | [a] => [a]
  | a :: b :: rest =>
    if a = b then dedupAdjacent (b :: rest) else a :: dedupAdjacent (b :: rest)

/-- `main`'s input preparation: `pats.sort(); pats.dedup();`.  Rust sorts
byte-lexicographically; UTF-8 byte order coincides with the
codepoint-lexicographic `String` order used here. -/
def prep_patterns (pats : List String) : List String :=
  dedupAdjacent (pats.mergeSort (fun a b => decide (a ≤ b)))

/-! The arXiv Atom feed model and `print_arxiv` / `handle_response`. -/

/-- The `"arxiv"` extension block of a feed entry: when the inner map has a
`"doi"` key it holds the corresponding `Vec<Extension>`, each extension
carrying an optional `value()`. -/
structure ArxivBlock where
  doi : Option (List (Option String))
  deriving DecidableEq

/-- A parsed Atom feed entry, restricted to the fields `print_arxiv`
reads: author names in order, the published date (only its year is used),
the entry id, the category terms in order, the title, and the `"arxiv"`
extension block when present. -/
structure Entry where
  authors : List String
  published : Option Int
  id : String
  categories : List String
  title : String
  arxivExt : Option ArxivBlock
  deriving DecidableEq

/-- A parsed Atom feed. -/
structure Feed where
  entries : List Entry
  deriving DecidableEq

/-- `[T]::join(sep)`: concatenate with `sep` between consecutive elements. -/
def joinSep (sep : String) : List String → String
  | [] => ""
  | [x] => x
  | x :: y :: rest => x ++ sep ++ joinSep sep (y :: rest)

/-- `str::split_whitespace`, accumulator-based: maximal runs of
non-whitespace characters. -/
def splitWsAux : List Char → List Char → List (List Char)
  | [], acc => if acc.isEmpty then [] else [acc.reverse]
  | c :: rest, acc =>
    if c.isWhitespace then
      if acc.isEmpty then splitWsAux rest []
      else acc.reverse :: splitWsAux rest []
    else splitWsAux rest (c :: acc)

/-- `a.name().split_whitespace().collect::<Vec<_>>()`. -/
def splitWs (s : String) : List String :=
  (splitWsAux s.data []).map String.mk

/-- The author loop of `print_arxiv`: for the `i`-th author, split the name
on whitespace (`assert!` the tokens are non-empty, a panic otherwise), use
the last token as surname — recorded as `firstauth` when `i == 0` — and
append `"{surname}, {given names}"` plus `" and "` for every author but the
last.  Returns `(firstauth, authors)`. -/
def build_authors_aux (total : Nat) :
    List String → Nat → String → String → Except Failure (String × String)
  | [], _, firstauth, acc => .ok (firstauth, acc)
  | a :: rest, i, firstauth, acc =>
    match splitWs a with
    | [] => .error .panic
    | t :: ts =>
      let surname := (t :: ts).getLast (by simp)
      let firstauth' := if i = 0 then surname else firstauth
      let ending := if i ≠ total - 1 then " and " else ""
      build_authors_aux total rest (i + 1) firstauth'
        (acc ++ (surname ++ ", " ++ joinSep " " (t :: ts).dropLast ++ ending))

/-- The author loop, started as in the source. -/
def build_authors (names : List String) : Except Failure (String × String) :=
  build_authors_aux names.length names 0 "" ""

/-- `title.replace("\n ", "")`: remove every newline-followed-by-space. -/
def replaceNlSp : List Char → List Char
  | '\n' :: ' ' :: rest => replaceNlSp rest
  | c :: rest => c :: replaceNlSp rest
  | [] => []

/-- The `IdType::Doi` arm of `handle_response` (its only non-recursive
arm).  In the source, `print_arxiv` and `handle_response` are mutually
recursive, but the data bounds the recursion at depth one: an arXiv entry
redirects only through a DOI fetch, whose handler never redirects again.
The pair is therefore embedded in layers — this arm first, then
`print_arxiv` calling it, then the full `handle_response`; the lemma
`handle_response_doi_arm` records that the layering agrees with the
source's `handle_response(res, IdType::Doi)` call. -/
def handle_response_doi (res : Except Unit String) : Except Failure String :=
  match res with
  | .error _ => .error (.exit "Invalid DOI or arXiv ID!")
  | .ok body =>
    if containsSub body.data "cannot be found".data then
      .error (.exit "Invalid DOI or arXiv ID!")
    else .ok (print_doi body)

/-- `print_arxiv`, with the network (`request_info` plus response text
decoding) abstracted as `fetch` and Atom parsing (`str::parse::<Feed>`)
abstracted as `parse`. -/
def print_arxiv (fetch : IdType → String → Except Unit String)
    (parse : String → Option Feed) (input : Feed) : Except Failure String :=
  match input.entries with
  | [] => .error (.exit "Invalid DOI or arXiv ID!")
  | entry :: _ =>
    if entry.authors = [] ∨ entry.published = none ∨ entry.id = "" then
      .error (.exit "Invalid DOI or arXiv ID!")
    else
      match entry.arxivExt with
      | none => .error .panic
      | some ext =>
        match ext.doi with
        | some vals =>
          match vals with
          | [] => .error .panic
          | none :: _ => .error .panic
          | some doi :: _ => handle_response_doi (fetch .Doi doi)
        | none =>
          match build_authors entry.authors with
          | .error f => .error f
          | .ok (firstauth, authors) =>
            match entry.categories with
            | [] => .error .panic
            | cls :: _ =>
              match entry.published with
              | none => .error .panic
              | some y =>
                let year := toString y
                let key := firstauth ++ "_" ++ year
                let title := String.mk (replaceNlSp entry.title.data)
                match extract_id ARXIV_RE entry.id with
                | .error f => .error f
                | .ok id =>
                  .ok (print_doi ("@article\x7b" ++ key ++ ",title=\x7b" ++ title ++
                    "\x7d,author=\x7b" ++ authors ++ "\x7d,year=\x7b" ++ year ++
                    "\x7d,eprint=\x7b" ++ id ++
                    "\x7d,archivePrefix=\x7barXiv\x7d,primaryClass=\x7b" ++
                    cls ++ "\x7d\x7d"))

/-- `handle_response`: a transport error or a body containing
"cannot be found" exits with "Invalid DOI or arXiv ID!"; otherwise a DOI
body goes through `print_doi` and an arXiv body is parsed as a feed
(`unwrap`, a panic on parse failure) and handed to `print_arxiv`. -/
def handle_response (fetch : IdType → String → Except Unit String)
    (parse : String → Option Feed) (res : Except Unit String)
    (idtype : IdType) : Except Failure String :=
  match res with
  | .error _ => .error (.exit "Invalid DOI or arXiv ID!")
  | .ok body =>
    if containsSub body.data "cannot be found".data then
      .error (.exit "Invalid DOI or arXiv ID!")
    else
      match idtype with
      | .Doi => .ok (print_doi body)
      | .Arxiv =>
        match parse body with
        | none => .error .panic
        | some feed => print_arxiv fetch parse feed

/-- The layered embedding agrees with the source: on a DOI-kind response
`handle_response` is exactly the arm `print_arxiv` calls. -/
theorem handle_response_doi_arm (fetch : IdType → String → Except Unit String)
    (parse : String → Option Feed) (res : Except Unit String) :
    handle_response fetch parse res .Doi = handle_response_doi res := by
  cases res <;> simp [handle_response, handle_response_doi]

/-- `get_bibtex`: classify and extract, fetch, then handle the response. -/
def get_bibtex (fetch : IdType → String → Except Unit String)
    (parse : String → Option Feed) (pat : String) : Except Failure String :=
  match classify_extract pat with
  | .error f => .error f
  | .ok (id, idtype) => handle_response fetch parse (fetch idtype id) idtype

/-! Claim-side definitions (following the specification's wording, for
comparison with the synthesis code): author rendering and key material. -/

/-- Per the spec: split the author name on whitespace; the last token is
the surname, the remaining tokens joined with spaces are the given names;
render as "Surname, Given Names". -/
def renderAuthorSpec (name : String) : String :=
  match splitWs name with
  | [] => ""
  | t :: ts => (t :: ts).getLast (by simp) ++ ", " ++ joinSep " " (t :: ts).dropLast

/-- Per the spec: all rendered authors joined with " and ". -/
def renderAuthorsSpec (names : List String) : String :=
  joinSep " and " (names.map renderAuthorSpec)

/-- Per the spec: the first author's surname, reserved for the record key. -/
def firstSurnameSpec (names : List String) : String :=
  match names with
  | [] => ""
  | a :: _ =>
    match splitWs a with
    | [] => ""
    | t :: ts => (t :: ts).getLast (by simp)

/-! Helper lemmas about `handle_response`. -/

theorem handle_response_error (fetch : IdType → String → Except Unit String)
    (parse : String → Option Feed) (e : Unit) (idtype : IdType) :
    handle_response fetch parse (.error e) idtype =
      .error (.exit "Invalid DOI or arXiv ID!") := by
  rw [handle_response.eq_def]

theorem handle_response_marker (fetch : IdType → String → Except Unit String)
    (parse : String → Option Feed) (body : String) (idtype : IdType)
    (h : containsSub body.data "cannot be found".data = true) :
    handle_response fetch parse (.ok body) idtype =
      .error (.exit "Invalid DOI or arXiv ID!") := by
  rw [handle_response.eq_def]
  simp [h]

theorem handle_response_doi_ok (fetch : IdType → String → Except Unit String)
    (parse : String → Option Feed) (body : String)
    (h : containsSub body.data "cannot be found".data = false) :
    handle_response fetch parse (.ok body) .Doi = .ok (print_doi body) := by
  rw [handle_response.eq_def]
  simp [h]

/-- Unfolding lemma: an entry that passes the required-field checks and
whose arXiv extension block declares a DOI redirects to the DOI handler on
the declared value. -/
theorem print_arxiv_doi_redirect (fetch : IdType → String → Except Unit String)
    (parse : String → Option Feed) (e : Entry) (rest : List Entry)
    (d : String) (dtail : List (Option String))
    (hauth : e.authors ≠ []) (hpub : e.published ≠ none) (hid : e.id ≠ "")
    (hext : e.arxivExt = some ⟨some (some d :: dtail)⟩) :
    print_arxiv fetch parse ⟨e :: rest⟩ =
      handle_response fetch parse (fetch .Doi d) .Doi := by
  rw [handle_response_doi_arm, print_arxiv.eq_def]
  simp [hauth, hpub, hid, hext]

/-- Every failure of the author loop is a panic (the failed
`assert!(!name_vec.is_empty())`), never an `exit` with a message. -/
theorem build_authors_aux_error_panic :
    ∀ (names : List String) (total i : Nat) (fa acc : String) (f : Failure),
      build_authors_aux total names i fa acc = .error f → f = .panic := by
  intro names
  induction names with
  | nil =>
    intro total i fa acc f h
    simp [build_authors_aux] at h
  | cons a rest ih =>
    intro total i fa acc f h
    rw [build_authors_aux.eq_def] at h
    cases hs : splitWs a with
    | nil =>
      simp [hs] at h
      exact h.symm
    | cons t ts =>
      simp [hs] at h
      exact ih _ _ _ _ _ h

/-! Claim theorems. -/

/-- C1: for an arXiv feed entry satisfying the data-model invariants
(non-empty authors, a published date, a non-empty id) whose arXiv extension
block declares a DOI, when the registry returns a payload for that DOI
(fetch succeeds and the payload does not carry the "cannot be found"
marker), `print_arxiv` returns exactly `print_doi` of that payload — the
arXiv record-synthesis path is never executed. -/
theorem c1_declared_doi_shortcircuit (fetch : IdType → String → Except Unit String)
    (parse : String → Option Feed) (e : Entry) (rest : List Entry)
    (d : String) (dtail : List (Option String)) (payload : String)
    (hauth : e.authors ≠ []) (hpub : e.published ≠ none) (hid : e.id ≠ "")
    (hext : e.arxivExt = some ⟨some (some d :: dtail)⟩)
    (hfetch : fetch .Doi d = .ok payload)
    (hmark : containsSub payload.data "cannot be found".data = false) :
    print_arxiv fetch parse ⟨e :: rest⟩ = .ok (print_doi payload) := by
  rw [print_arxiv_doi_redirect fetch parse e rest d dtail hauth hpub hid hext,
    hfetch, handle_response_doi_ok fetch parse payload hmark]

/-- Closed instance of C1 at a concrete entry with a declared DOI and a
concrete registry payload. -/
theorem c1_witness :
    print_arxiv (fun _ _ => .ok "@misc\x7ba,b=\x7bc\x7d\x7d") (fun _ => none)
      ⟨[⟨["A B"], some 2020, "id1", ["cs.LO"], "T",
         some ⟨some [some "10.1000/xyz"]⟩⟩]⟩ =
      .ok (print_doi "@misc\x7ba,b=\x7bc\x7d\x7d") :=
  c1_declared_doi_shortcircuit _ _ _ _ "10.1000/xyz" [] _
    (by decide) (by decide) (by decide) rfl rfl (by decide)

/-- C6 counterexample: an entry with non-empty authors, a published date
and a non-empty id but an empty category list makes `print_arxiv` panic
(the failed `assert!(!categories.is_empty())`), which is not the
"Invalid DOI or arXiv ID!" exit the claim requires for every missing
required field. -/
theorem c6_counterexample :
    print_arxiv (fun _ _ => .error ()) (fun _ => none)
      ⟨[⟨["A B"], some 2020, "x", [], "T", some ⟨none⟩⟩]⟩ = .error .panic ∧
    print_arxiv (fun _ _ => .error ()) (fun _ => none)
      ⟨[⟨["A B"], some 2020, "x", [], "T", some ⟨none⟩⟩]⟩ ≠
      .error (.exit "Invalid DOI or arXiv ID!") :=
  ⟨by decide, by decide⟩

/-- C6 (amended): empty authors, a missing published date or an empty id
make normalization exit with "Invalid DOI or arXiv ID!" (indistinguishable
from a classification failure), but an empty category list instead makes
it panic on a failed assertion. -/
theorem c6_missing_field_handling (fetch : IdType → String → Except Unit String)
    (parse : String → Option Feed) (e : Entry) (rest : List Entry) :
    ((e.authors = [] ∨ e.published = none ∨ e.id = "") →
      print_arxiv fetch parse ⟨e :: rest⟩ =
        .error (.exit "Invalid DOI or arXiv ID!")) ∧
    (e.authors ≠ [] → e.published ≠ none → e.id ≠ "" →
      e.arxivExt = some ⟨none⟩ → e.categories = [] →
      print_arxiv fetch parse ⟨e :: rest⟩ = .error .panic) := by
  constructor
  · intro h
    rw [print_arxiv.eq_def]
    rcases h with h | h | h <;> simp [h]
  · intro h1 h2 h3 hext hcat
    rw [print_arxiv.eq_def]
    simp only [h1, h2, h3, hext, hcat]
    simp [h1, h2, h3]
    cases hb : build_authors e.authors with
    | error f =>
      have hf := build_authors_aux_error_panic e.authors e.authors.length 0 "" "" f hb
      simp [hb, hf]
    | ok pr =>
      cases pr with
      | mk fa au => simp [hb, hcat]

/-- Closed instance of C6 (amended): a missing-authors entry exits with the
message; an empty-category entry panics. -/
theorem c6_witness :
    print_arxiv (fun _ _ => .error ()) (fun _ => none)
      ⟨[⟨[], some 2020, "x", ["t"], "T", none⟩]⟩ =
      .error (.exit "Invalid DOI or arXiv ID!") ∧
    print_arxiv (fun _ _ => .error ()) (fun _ => none)
      ⟨[⟨["C D"], some 2020, "x", [], "T", some ⟨none⟩⟩]⟩ = .error .panic :=
  ⟨(c6_missing_field_handling _ _ _ _).1 (Or.inl rfl),
   (c6_missing_field_handling _ _ _ _).2 (by decide) (by decide) (by decide)
     rfl rfl⟩

/-- C3: on each of the seven canonical test inputs, extraction with the
arXiv pattern set returns exactly the expected identifier. -/
theorem c3_arxiv_extraction_test_set :
    extract_id ARXIV_RE "arxiv:2105.11572" = .ok "2105.11572" ∧
    extract_id ARXIV_RE "https://arxiv.org/abs/1912.02599v2" = .ok "1912.02599v2" ∧
    extract_id ARXIV_RE "2105.11572" = .ok "2105.11572" ∧
    extract_id ARXIV_RE "https://arxiv.org/abs/math/0506203" = .ok "math/0506203" ∧
    extract_id ARXIV_RE "math/0506203" = .ok "math/0506203" ∧
    extract_id ARXIV_RE "hep-th/9910001" = .ok "hep-th/9910001" ∧
    extract_id ARXIV_RE "https://arxiv.org/abs/hep-th/9910001v2" = .ok "hep-th/9910001v2" :=
  ⟨by decide, by decide, by decide, by decide, by decide, by decide, by decide⟩

/-- C4: on the input "10.1002/a<b" both DOI patterns match (the general
pattern matches "10.1002/a", the Wiley pattern "10.1002/a<b"), and
`extract_id` panics (`ArrayVec<_, 1>` capacity overflow in `collect`)
instead of returning the first declared pattern's match as the claim
states. -/
theorem c4_multi_match_panics :
    findMatchList doiGeneralRE "10.1002/a<b".data = some "10.1002/a".data ∧
    findMatchList doiWileyRE "10.1002/a<b".data = some "10.1002/a<b".data ∧
    extract_id DOI_RE "10.1002/a<b" = .error .panic :=
  ⟨by decide, by decide, by decide⟩

/-- C5: every fetch outcome that is an error of the opaque transport
(covering transport failures and non-2xx-equivalents surfaced as errors)
exits with "Invalid DOI or arXiv ID!", and so does every DOI response whose
body contains "cannot be found". -/
theorem c5_fetch_failures_not_found (fetch : IdType → String → Except Unit String)
    (parse : String → Option Feed) (idtype : IdType) :
    (∀ e : Unit, handle_response fetch parse (.error e) idtype =
      .error (.exit "Invalid DOI or arXiv ID!")) ∧
    (∀ body : String, containsSub body.data "cannot be found".data = true →
      handle_response fetch parse (.ok body) .Doi =
        .error (.exit "Invalid DOI or arXiv ID!")) :=
  ⟨fun e => handle_response_error fetch parse e idtype,
   fun body h => handle_response_marker fetch parse body .Doi h⟩

/-- Closed instance of C5 at a concrete transport error and a concrete
"cannot be found" DOI body. -/
theorem c5_witness :
    handle_response (fun _ _ => .error ()) (fun _ => none) (.error ()) .Doi =
      .error (.exit "Invalid DOI or arXiv ID!") ∧
    handle_response (fun _ _ => .error ()) (fun _ => none)
      (.ok "DOI cannot be found") .Doi =
      .error (.exit "Invalid DOI or arXiv ID!") :=
  ⟨(c5_fetch_failures_not_found _ _ _).1 (),
   (c5_fetch_failures_not_found (fun _ _ => .error ()) (fun _ => none) .Doi).2 "DOI cannot be found" (by decide)⟩

/-- C10: the "cannot be found" body check runs for arXiv responses too,
before any feed parsing: whatever the parser would return, a marker body
exits with "Invalid DOI or arXiv ID!". -/
theorem c10_marker_before_parse (fetch : IdType → String → Except Unit String)
    (parse : String → Option Feed) (body : String)
    (h : containsSub body.data "cannot be found".data = true) :
    handle_response fetch parse (.ok body) .Arxiv =
      .error (.exit "Invalid DOI or arXiv ID!") :=
  handle_response_marker fetch parse body .Arxiv h

/-- Closed instance of C10: a marker body is rejected even when the parser
would return a perfectly well-formed feed. -/
theorem c10_witness :
    handle_response (fun _ _ => .error ())
      (fun _ => some ⟨[⟨["A B"], some 2020, "x", ["t"], "T", some ⟨none⟩⟩]⟩)
      (.ok "<feed>This id cannot be found.</feed>") .Arxiv =
      .error (.exit "Invalid DOI or arXiv ID!") :=
  c10_marker_before_parse _ _ _ (by decide)

/-- One-step unfolding equation for the author loop. -/
theorem build_authors_aux_cons (total : Nat) (a : String) (rest : List String)
    (i : Nat) (fa acc : String) :
    build_authors_aux total (a :: rest) i fa acc =
      match splitWs a with
      | [] => .error .panic
      | t :: ts =>
        build_authors_aux total rest (i + 1)
          (if i = 0 then (t :: ts).getLast (by simp) else fa)
          (acc ++ ((t :: ts).getLast (by simp) ++ ", " ++
            joinSep " " (t :: ts).dropLast ++
            (if i ≠ total - 1 then " and " else ""))) := rfl

/-- The author loop from index `i ≥ 1` on (no further `firstauth` update):
it appends the remaining authors rendered per the spec, separated by
" and ", with no separator after the globally last author. -/
theorem build_authors_aux_tail :
    ∀ (names : List String) (total i : Nat) (fa acc : String),
      1 ≤ i → i + names.length = total →
      (∀ a ∈ names, splitWs a ≠ []) →
      build_authors_aux total names i fa acc =
        .ok (fa, acc ++ joinSep " and " (names.map renderAuthorSpec)) := by
  intro names
  induction names with
  | nil =>
    intro total i fa acc hi htot h
    simp [build_authors_aux, joinSep]
  | cons a rest ih =>
    intro total i fa acc hi htot h
    have ha := h a (by simp)
    cases hs : splitWs a with
    | nil => exact absurd hs ha
    | cons t ts =>
      rw [build_authors_aux_cons, hs]
      dsimp only
      rw [if_neg (by omega : ¬ i = 0)]
      cases rest with
      | nil =>
        have hlast : ¬ (i ≠ total - 1) := by
          simp only [List.length_cons, List.length_nil] at htot
          omega
        rw [if_neg hlast]
        simp [build_authors_aux, joinSep, renderAuthorSpec, hs,
          String.append_empty, String.append_assoc]
      | cons b bs =>
        have hnotlast : (i ≠ total - 1) := by
          simp only [List.length_cons] at htot
          omega
        rw [if_pos hnotlast]
        rw [ih total (i + 1) fa _ (by omega)
          (by simp only [List.length_cons] at htot ⊢; omega)
          (fun x hx => h x (by simp [hx]))]
        simp only [List.map_cons, joinSep, renderAuthorSpec, hs]
        simp [String.append_assoc]

/-- The author loop computes exactly the spec-side rendering: `firstauth`
is the first author's surname and the accumulated string is the authors
rendered and joined with " and ". -/
theorem build_authors_eq (a : String) (rest : List String)
    (h : ∀ x ∈ a :: rest, splitWs x ≠ []) :
    build_authors (a :: rest) =
      .ok (firstSurnameSpec (a :: rest), renderAuthorsSpec (a :: rest)) := by
  have ha := h a (by simp)
  cases hs : splitWs a with
  | nil => exact absurd hs ha
  | cons t ts =>
    rw [build_authors, build_authors_aux_cons, hs]
    dsimp only
    rw [if_pos rfl]
    cases rest with
    | nil =>
      rw [if_neg (by simp : ¬ ((0 : Nat) ≠ ([a] : List String).length - 1))]
      simp [build_authors_aux, firstSurnameSpec, renderAuthorsSpec,
        renderAuthorSpec, joinSep, hs, String.append_empty,
        String.empty_append, String.append_assoc]
    | cons b bs =>
      rw [if_pos (by simp : (0 : Nat) ≠ (a :: b :: bs : List String).length - 1)]
      rw [build_authors_aux_tail (b :: bs) (a :: b :: bs : List String).length 1 _ _
        (by omega) (by simp only [List.length_cons]; omega)
        (fun x hx => h x (by simp [hx]))]
      simp only [firstSurnameSpec, renderAuthorsSpec, renderAuthorSpec,
        List.map_cons, joinSep, hs]
      simp [String.empty_append, String.append_assoc]

/-- C2 counterexample: this entry satisfies every condition of the claim —
non-empty authors ([""]), a published date, a non-empty id from which the
arXiv pattern set extracts "2105.11572v1", a non-empty category list, and
no declared DOI — yet `print_arxiv` produces no record at all: the author
loop's `assert!(!name_vec.is_empty())` fails on the author name "" (no
whitespace-separated tokens) and the program panics, while the claim says
the output is `print_doi` of the synthesized record. -/
theorem c2_counterexample :
    print_arxiv (fun _ _ => .error ()) (fun _ => none)
      ⟨[⟨[""], some 2021, "http://arxiv.org/abs/2105.11572v1",
         ["astro-ph.IM"], "T", some ⟨none⟩⟩]⟩ = .error .panic := by
  decide

/-- C2 (amended): for an entry without a declared DOI, with non-empty
authors each of whose names has at least one whitespace token, a published
date, a non-empty id on which arXiv extraction succeeds, and a non-empty
category list, the synthesized record is `print_doi` of
`@article{<key>,title={<title>},author={<authors>},year={<year>},eprint={<eprint>},archivePrefix={arXiv},primaryClass={<class>}}`
with the fields assembled exactly as the claim describes. -/
theorem c2_synthesis (fetch : IdType → String → Except Unit String)
    (parse : String → Option Feed) (e : Entry) (rest : List Entry)
    (y : Int) (eid cls : String) (crest : List String)
    (hauth : e.authors ≠ [])
    (htok : ∀ a ∈ e.authors, splitWs a ≠ [])
    (hpub : e.published = some y)
    (hid : e.id ≠ "")
    (hcat : e.categories = cls :: crest)
    (hext : e.arxivExt = some ⟨none⟩)
    (hex : extract_id ARXIV_RE e.id = .ok eid) :
    print_arxiv fetch parse ⟨e :: rest⟩ =
      .ok (print_doi ("@article\x7b" ++
        (firstSurnameSpec e.authors ++ "_" ++ toString y) ++
        ",title=\x7b" ++ String.mk (replaceNlSp e.title.data) ++
        "\x7d,author=\x7b" ++ renderAuthorsSpec e.authors ++
        "\x7d,year=\x7b" ++ toString y ++
        "\x7d,eprint=\x7b" ++ eid ++
        "\x7d,archivePrefix=\x7barXiv\x7d,primaryClass=\x7b" ++ cls ++
        "\x7d\x7d")) := by
  obtain ⟨a, as, has⟩ := List.exists_cons_of_ne_nil hauth
  have hpub' : e.published ≠ none := by rw [hpub]; simp
  rw [print_arxiv.eq_def]
  simp only [hauth, hpub', hid, hext, hcat, hpub, has]
  rw [build_authors_eq a as (has ▸ htok), hex]
  dsimp only
  simp [String.append_assoc]

/-- Closed instance of C2 (amended) at a concrete two-author entry. -/
theorem c2_witness :
    print_arxiv (fun _ _ => .error ()) (fun _ => none)
      ⟨[⟨["John A Smith", "Jane Doe"], some 2021,
         "http://arxiv.org/abs/2105.11572v1", ["astro-ph.IM"], "A Title",
         some ⟨none⟩⟩]⟩ =
      .ok (print_doi ("@article\x7b" ++
        (firstSurnameSpec ["John A Smith", "Jane Doe"] ++ "_" ++
          toString (2021 : Int)) ++
        ",title=\x7b" ++ String.mk (replaceNlSp "A Title".data) ++
        "\x7d,author=\x7b" ++ renderAuthorsSpec ["John A Smith", "Jane Doe"] ++
        "\x7d,year=\x7b" ++ toString (2021 : Int) ++
        "\x7d,eprint=\x7b" ++ "2105.11572v1" ++
        "\x7d,archivePrefix=\x7barXiv\x7d,primaryClass=\x7b" ++ "astro-ph.IM" ++
        "\x7d\x7d")) :=
  c2_synthesis _ _ _ [] 2021 "2105.11572v1" "astro-ph.IM" []
    (by decide) (by decide) rfl (by decide) rfl rfl (by decide)

/-- C8 counterexample: the input "10.1234//" extracts (DOI kind) to the
canonical id "10.1234" — the general DOI pattern matched "10.1234//" and
the trailing slashes were trimmed away — but re-running classification on
"10.1234" fails with the classification-time error, so classification and
extraction are not idempotent on extraction outputs. -/
theorem c8_counterexample :
    classify_extract "10.1234//" = .ok ("10.1234", .Doi) ∧
    classify_extract "10.1234" =
      .error (.exit "Please enter a valid DOI or arXiv ID!") :=
  ⟨by decide, by decide⟩

/-- `Vec::dedup` does not change the set of elements. -/
theorem mem_dedupAdjacent (x : String) :
    ∀ (l : List String), x ∈ dedupAdjacent l ↔ x ∈ l := by
  intro l
  induction l using dedupAdjacent.induct with
  | case1 => simp [dedupAdjacent]
  | case2 a => simp [dedupAdjacent]
  | case3 b rest ih =>
    rw [dedupAdjacent, if_pos rfl, ih]
    simp [List.mem_cons]
  | case4 a b rest hab ih =>
    rw [dedupAdjacent, if_neg hab]
    simp [List.mem_cons, ih]

/-- On a `≤`-sorted list, removing adjacent duplicates removes all
duplicates. -/
theorem dedupAdjacent_sorted_nodup :
    ∀ (l : List String), List.Sorted (fun a b => a ≤ b) l →
      (dedupAdjacent l).Nodup := by
  intro l
  induction l using dedupAdjacent.induct with
  | case1 => intro _; simp [dedupAdjacent]
  | case2 a => intro _; simp [dedupAdjacent]
  | case3 b rest ih =>
    intro hs
    rw [dedupAdjacent, if_pos rfl]
    exact ih (List.sorted_cons.mp hs).2
  | case4 a b rest hab ih =>
    intro hs
    rw [dedupAdjacent, if_neg hab]
    have hs' := (List.sorted_cons.mp hs).2
    have hale := (List.sorted_cons.mp hs).1
    refine List.nodup_cons.mpr ⟨?_, ih hs'⟩
    intro hmem
    rcases List.mem_cons.mp ((mem_dedupAdjacent a (b :: rest)).mp hmem) with h | h
    · exact hab h
    · have h1 : a ≤ b := hale b (by simp)
      have h2 : b ≤ a := (List.sorted_cons.mp hs').1 a h
      exact hab (le_antisymm h1 h2)

/-- C9: the batch runner's input preparation (`sort` then `dedup`)
dispatches exactly one task per distinct pattern: the prepared list has no
duplicates and the same members as the input; in particular the duplicated
input list collapses to a single task. -/
theorem c9_batch_dedup :
    (∀ pats : List String, (prep_patterns pats).Nodup ∧
      ∀ p, p ∈ prep_patterns pats ↔ p ∈ pats) ∧
    prep_patterns ["10.1000/xyz", "10.1000/xyz"] = ["10.1000/xyz"] := by
  constructor
  · intro pats
    constructor
    · exact dedupAdjacent_sorted_nodup _ (List.sorted_mergeSort' pats)
    · intro p
      rw [prep_patterns, mem_dedupAdjacent, List.mem_mergeSort]
  · have hsort : List.mergeSort ["10.1000/xyz", "10.1000/xyz"]
        (fun a b => decide (a ≤ b)) = ["10.1000/xyz", "10.1000/xyz"] := by
      have hperm := List.mergeSort_perm ["10.1000/xyz", "10.1000/xyz"]
        (fun a b => decide (a ≤ b))
      have h2 : (["10.1000/xyz", "10.1000/xyz"] : List String) =
          List.replicate 2 "10.1000/xyz" := by decide
      rw [h2] at hperm ⊢
      exact List.perm_replicate.mp hperm
    rw [prep_patterns, hsort]
    simp [dedupAdjacent]

/-- C8 (amended): re-running classification and extraction is the identity
on each canonical id of the test set (and on a representative DOI id);
idempotence can only fail when trailing-slash trimming leaves an id that no
longer matches any pattern. -/
theorem c8_idempotent_on_canonical_ids :
    classify_extract "2105.11572" = .ok ("2105.11572", .Arxiv) ∧
    classify_extract "1912.02599v2" = .ok ("1912.02599v2", .Arxiv) ∧
    classify_extract "math/0506203" = .ok ("math/0506203", .Arxiv) ∧
    classify_extract "hep-th/9910001" = .ok ("hep-th/9910001", .Arxiv) ∧
    classify_extract "hep-th/9910001v2" = .ok ("hep-th/9910001v2", .Arxiv) ∧
    classify_extract "10.1000/xyz" = .ok ("10.1000/xyz", .Doi) :=
  ⟨by decide, by decide, by decide, by decide, by decide, by decide⟩

/-! Lemmas for C7: structural facts about `sfx` matches of `DOI_FMT`, and
first/last-character preservation of the `print_doi` pipeline. -/

/-- Any suffix produced by the matcher is no longer than the input. -/
theorem sfx_length_le :
    ∀ (f : Nat) (re : RE) (s t : List Char), t ∈ sfx f re s →
      t.length ≤ s.length := by
  intro f
  induction f with
  | zero =>
    intro re s t h
    simp [sfx] at h
  | succ f ih =>
    intro re s t h
    cases re with
    | eps =>
      simp [sfx] at h
      simp [h]
    | ch p =>
      cases s with
      | nil => simp [sfx] at h
      | cons c cs =>
        by_cases hp : p c
        · simp [sfx, hp] at h
          simp [h]
        · simp [sfx, hp] at h
    | seq a b =>
      simp only [sfx, List.mem_flatMap] at h
      obtain ⟨u, hu, ht⟩ := h
      exact le_trans (ih b u t ht) (ih a s u hu)
    | alt a b =>
      simp only [sfx, List.mem_append] at h
      rcases h with h | h
      · exact ih a s t h
      · exact ih b s t h
    | opt a =>
      simp only [sfx, List.mem_append, List.mem_singleton] at h
      rcases h with h | h
      · exact ih a s t h
      · simp [h]
    | star a =>
      simp only [sfx, List.mem_append, List.mem_flatMap, List.mem_filter,
        List.mem_singleton] at h
      rcases h with ⟨u, ⟨hu, hlt⟩, ht⟩ | h
      · have h1 := ih (.star a) u t ht
        have h2 : u.length < s.length := by simpa using hlt
        omega
      · simp [h]
    | starL a =>
      simp only [sfx, List.mem_cons, List.mem_flatMap, List.mem_filter] at h
      rcases h with h | ⟨u, ⟨hu, hlt⟩, ht⟩
      · simp [h]
      · have h1 := ih (.starL a) u t ht
        have h2 : u.length < s.length := by simpa using hlt
        omega

/-- Inversion for a single-character class: it consumes exactly one
accepted character. -/
theorem sfx_ch_inv :
    ∀ (f : Nat) (p : Char → Bool) (s t : List Char), t ∈ sfx f (.ch p) s →
      ∃ c, s = c :: t ∧ p c = true := by
  intro f p s t h
  cases f with
  | zero => simp [sfx] at h
  | succ f =>
    cases s with
    | nil => simp [sfx] at h
    | cons c cs =>
      by_cases hp : p c
      · simp [sfx, hp] at h
        exact ⟨c, by rw [h], hp⟩
      · simp [sfx, hp] at h

/-- Inversion for concatenation. -/
theorem sfx_seq_inv :
    ∀ (f : Nat) (a b : RE) (s t : List Char), t ∈ sfx f (.seq a b) s →
      ∃ f' u, f = f' + 1 ∧ u ∈ sfx f' a s ∧ t ∈ sfx f' b u := by
  intro f a b s t h
  cases f with
  | zero => simp [sfx] at h
  | succ f =>
    simp only [sfx, List.mem_flatMap] at h
    obtain ⟨u, hu, ht⟩ := h
    exact ⟨f, u, rfl, hu, ht⟩

/-- A `DOI_FMT` match starts with a comma and consumes at least two
characters (the comma and at least one `\w` character). -/
theorem sfx_DOI_FMT_bound (f : Nat) (s t : List Char)
    (h : t ∈ sfx f DOI_FMT s) :
    (∃ rest, s = ',' :: rest) ∧ t.length + 2 ≤ s.length := by
  rw [show DOI_FMT = .seq (lit ',') (.seq (.opt sCh) (.seq (plus wCh)
    (.seq (lit '=') (.seq (lit '\x7b') (.seq (plusL anyCh)
      (.seq (lit '\x7d') .eps)))))) from rfl] at h
  obtain ⟨f1, u, _, hu, ht1⟩ := sfx_seq_inv _ _ _ _ _ h
  obtain ⟨c, hs, hc⟩ := sfx_ch_inv _ _ _ _ hu
  obtain ⟨f2, v, _, hv, ht2⟩ := sfx_seq_inv _ _ _ _ _ ht1
  obtain ⟨f3, w, _, hw, ht3⟩ := sfx_seq_inv _ _ _ _ _ ht2
  obtain ⟨f4, x, _, hx, hw2⟩ := sfx_seq_inv _ _ _ _ _ hw
  obtain ⟨d, hvd, _⟩ := sfx_ch_inv _ _ _ _ hx
  have l1 : t.length ≤ w.length := sfx_length_le _ _ _ _ ht3
  have l2 : w.length ≤ x.length := sfx_length_le _ _ _ _ hw2
  have l3 : v.length ≤ u.length := sfx_length_le _ _ _ _ hv
  have hcc : c = ',' := by simpa [lit] using hc
  have e1 : s.length = u.length + 1 := by rw [hs]; simp
  have e2 : v.length = x.length + 1 := by rw [hvd]; simp
  exact ⟨⟨u, by rw [hs, hcc]⟩, by omega⟩

/-- Inversion of `matchAt` at `DOI_FMT`: the input starts with a comma and
the match length `n` satisfies `2 ≤ n ≤ s.length`. -/
theorem matchAt_DOI_FMT_inv (s : List Char) (n : Nat)
    (h : matchAt DOI_FMT s = some n) :
    (∃ rest, s = ',' :: rest) ∧ 2 ≤ n ∧ n ≤ s.length := by
  rw [matchAt] at h
  cases hh : (sfx (fuelFor DOI_FMT s) DOI_FMT s).head? with
  | none => rw [hh] at h; simp at h
  | some t =>
    rw [hh] at h
    simp only [Option.some.injEq] at h
    have hmem : t ∈ sfx (fuelFor DOI_FMT s) DOI_FMT s :=
      List.mem_of_mem_head? (Option.mem_def.mpr hh)
    have hb := sfx_DOI_FMT_bound _ _ _ hmem
    exact ⟨hb.1, by omega, by omega⟩

/-- The replacement pass preserves the first character. -/
theorem replaceAllFMTGo_head? (f : Nat) (l : List Char) :
    (replaceAllFMTGo f l).head? = l.head? := by
  cases f with
  | zero => cases l <;> rfl
  | succ f =>
    cases l with
    | nil => rfl
    | cons c rest =>
      simp only [replaceAllFMTGo]
      cases hm : matchAt DOI_FMT (c :: rest) with
      | none => rfl
      | some n =>
        obtain ⟨⟨r, hr⟩, _, _⟩ := matchAt_DOI_FMT_inv _ _ hm
        have hc : c = ',' := by injection hr
        simp [fmtRepl, hc]

/-- The replacement pass preserves the last character (with enough fuel). -/
theorem replaceAllFMTGo_getLast? :
    ∀ (f : Nat) (l : List Char), l.length ≤ f →
      (replaceAllFMTGo f l).getLast? = l.getLast? := by
  intro f
  induction f with
  | zero =>
    intro l hf
    have hl : l = [] := by cases l <;> simp_all
    subst hl
    rfl
  | succ f ih =>
    intro l hf
    cases l with
    | nil => rfl
    | cons c rest =>
      simp only [replaceAllFMTGo]
      cases hm : matchAt DOI_FMT (c :: rest) with
      | none =>
        have ihr := ih rest (by simp at hf; omega)
        rw [show (c :: replaceAllFMTGo f rest) = [c] ++ replaceAllFMTGo f rest
          from rfl]
        rw [show (c :: rest : List Char) = [c] ++ rest from rfl]
        rw [List.getLast?_append, List.getLast?_append, ihr]
      | some n =>
        obtain ⟨⟨r, hr⟩, hn2, hnle⟩ := matchAt_DOI_FMT_inv _ _ hm
        have hmax : n.max 1 = n := Nat.max_eq_left (by omega)
        have hsuflen : ((c :: rest).drop (n.max 1)).length ≤ f := by
          rw [List.length_drop, hmax]
          simp only [List.length_cons] at hnle hf ⊢
          omega
        have ihs := ih _ hsuflen
        have hmlen : ((c :: rest).take n).length = n := by
          rw [List.length_take]
          exact Nat.min_eq_left hnle
        have hd1 : ((c :: rest).take n).drop 1 ≠ [] := by
          intro hemp
          have hlen0 := congrArg List.length hemp
          rw [List.length_drop, hmlen] at hlen0
          simp at hlen0
          omega
        obtain ⟨x, hx⟩ : ∃ x, (((c :: rest).take n).drop 1).getLast? = some x := by
          cases hgl : (((c :: rest).take n).drop 1).getLast? with
          | none => exact absurd (List.getLast?_eq_none_iff.mp hgl) hd1
          | some x => exact ⟨x, rfl⟩
        have hmg : ((c :: rest).take n).getLast? = some x := by
          conv_lhs => rw [← List.take_append_drop 1 ((c :: rest).take n)]
          rw [List.getLast?_append, hx]
          rfl
        have lhs_eq : (fmtRepl ((c :: rest).take n) ++
            replaceAllFMTGo f ((c :: rest).drop (n.max 1))).getLast? =
            ((c :: rest).drop (n.max 1)).getLast?.or (some x) := by
          rw [List.getLast?_append, ihs]
          rw [show fmtRepl ((c :: rest).take n) =
            [',', '\n', ' ', ' '] ++ ((c :: rest).take n).drop 1 from rfl]
          rw [List.getLast?_append, hx]
          rfl
        have rhs_eq : (c :: rest).getLast? =
            ((c :: rest).drop (n.max 1)).getLast?.or (some x) := by
          conv_lhs => rw [← List.take_append_drop (n.max 1) (c :: rest)]
          rw [List.getLast?_append, hmax, hmg]
        rw [lhs_eq, rhs_eq]

/-- The brace pass preserves the first character. -/
theorem replaceBrace_head? (l : List Char) :
    (replaceBrace l).head? = l.head? := by
  induction l using replaceBrace.induct with
  | case1 rest ih => rfl
  | case2 c rest hne ih =>
    rw [replaceBrace.eq_2 c rest hne]
    rfl
  | case3 => rfl

/-- The brace pass preserves the last character. -/
theorem replaceBrace_getLast? (l : List Char) :
    (replaceBrace l).getLast? = l.getLast? := by
  induction l using replaceBrace.induct with
  | case1 rest ih =>
    rw [show replaceBrace ('\x7d' :: '\x7d' :: rest) =
      ['\x7d', '\n', '\x7d'] ++ replaceBrace rest from rfl]
    rw [show ('\x7d' :: '\x7d' :: rest : List Char) =
      ['\x7d', '\x7d'] ++ rest from rfl]
    rw [List.getLast?_append, List.getLast?_append, ih]
    rfl
  | case2 c rest hne ih =>
    rw [replaceBrace.eq_2 c rest hne]
    rw [show (c :: replaceBrace rest : List Char) = [c] ++ replaceBrace rest
      from rfl]
    rw [show (c :: rest : List Char) = [c] ++ rest from rfl]
    rw [List.getLast?_append, List.getLast?_append, ih]
  | case3 => rfl

/-- One-step unfolding equation for the leftmost-match search. -/
theorem findMatchList_cons (re : RE) (c : Char) (rest : List Char) :
    findMatchList re (c :: rest) =
      match matchAt re (c :: rest) with
      | some n => some (List.take n (c :: rest))
      | none => findMatchList re rest := rfl

/-- With no `DOI_FMT` match anywhere, the replacement pass is the
identity. -/
theorem replaceAllFMTGo_no_match :
    ∀ (f : Nat) (l : List Char), findMatchList DOI_FMT l = none →
      replaceAllFMTGo f l = l := by
  intro f
  induction f with
  | zero => intro l h; cases l <;> rfl
  | succ f ih =>
    intro l h
    cases l with
    | nil => rfl
    | cons c rest =>
      have hm : matchAt DOI_FMT (c :: rest) = none := by
        cases hm' : matchAt DOI_FMT (c :: rest) with
        | none => rfl
        | some n => rw [findMatchList_cons, hm'] at h; simp at h
      have hrest : findMatchList DOI_FMT rest = none := by
        rw [findMatchList_cons, hm] at h
        exact h
      simp only [replaceAllFMTGo, hm]
      rw [ih rest hrest]

/-- With no `"}}"` occurrence, the brace pass is the identity. -/
theorem replaceBrace_no_brace :
    ∀ (l : List Char), containsSub l ['\x7d', '\x7d'] = false →
      replaceBrace l = l := by
  intro l
  induction l using replaceBrace.induct with
  | case1 rest ih =>
    intro h
    simp [containsSub, startsWithL] at h
  | case2 c rest hne ih =>
    intro h
    rw [containsSub] at h
    simp only [Bool.or_eq_false_iff] at h
    rw [replaceBrace.eq_2 c rest hne, ih h.2]
  | case3 =>
    intro _
    rfl

/-- The head of `dropWhile p` does not satisfy `p`. -/
theorem head?_dropWhile_not :
    ∀ (p : Char → Bool) (l : List Char) (c : Char),
      (l.dropWhile p).head? = some c → p c = false := by
  intro p l
  induction l with
  | nil => intro c h; simp at h
  | cons x xs ih =>
    intro c h
    by_cases hx : p x = true
    · rw [List.dropWhile_cons, if_pos hx] at h
      exact ih c h
    · rw [List.dropWhile_cons, if_neg hx] at h
      simp only [List.head?_cons, Option.some.injEq] at h
      rw [← h]
      exact Bool.not_eq_true _ |>.mp hx

/-- `dropWhile` keeps the last element when its result is non-empty. -/
theorem getLast?_dropWhile_of_ne_nil (p : Char → Bool) (l : List Char)
    (h : l.dropWhile p ≠ []) :
    (l.dropWhile p).getLast? = l.getLast? := by
  obtain ⟨pre, hpre⟩ := List.dropWhile_suffix (l := l) p
  obtain ⟨x, hx⟩ : ∃ x, (l.dropWhile p).getLast? = some x := by
    cases hgl : (l.dropWhile p).getLast? with
    | none => exact absurd (List.getLast?_eq_none_iff.mp hgl) h
    | some x => exact ⟨x, rfl⟩
  rw [hx, ← hpre, List.getLast?_append, hx]
  rfl

/-- The first character of a trimmed string is not whitespace. -/
theorem trimChars_head?_not_ws (l : List Char) (c : Char)
    (h : (trimChars l).head? = some c) : c.isWhitespace = false := by
  rw [trimChars, List.head?_reverse] at h
  have hne : List.dropWhile Char.isWhitespace
      (List.dropWhile Char.isWhitespace l).reverse ≠ [] := by
    intro hemp
    rw [hemp] at h
    simp at h
  rw [getLast?_dropWhile_of_ne_nil _ _ hne, List.getLast?_reverse] at h
  exact head?_dropWhile_not _ _ _ h

/-- The last character of a trimmed string is not whitespace. -/
theorem trimChars_getLast?_not_ws (l : List Char) (c : Char)
    (h : (trimChars l).getLast? = some c) : c.isWhitespace = false := by
  rw [trimChars, List.getLast?_reverse] at h
  exact head?_dropWhile_not _ _ _ h

/-- A string whose ends are not whitespace is unchanged by `trim`. -/
theorem trimChars_eq_self (l : List Char)
    (h1 : ∀ c, l.head? = some c → c.isWhitespace = false)
    (h2 : ∀ c, l.getLast? = some c → c.isWhitespace = false) :
    trimChars l = l := by
  have hd : l.dropWhile Char.isWhitespace = l := by
    cases l with
    | nil => rfl
    | cons x xs => rw [List.dropWhile_cons, if_neg (by simp [h1 x rfl])]
  have hd2 : l.reverse.dropWhile Char.isWhitespace = l.reverse := by
    cases hrev : l.reverse with
    | nil => rfl
    | cons z zs =>
      have hz : l.getLast? = some z := by
        rw [← List.head?_reverse, hrev]
        rfl
      rw [List.dropWhile_cons, if_neg (by simp [h2 z hz])]
  rw [trimChars, hd, hd2, List.reverse_reverse]

/-- C7 counterexample: `print_doi` is not idempotent on its own outputs:
on "\x7d\x7d\x7d" the `"\x7d\x7d"` replacement is non-overlapping left to
right, so the first pass yields a string that still contains "\x7d\x7d" and
a second pass changes it again. -/
theorem c7_counterexample :
    print_doi (print_doi "\x7d\x7d\x7d") ≠ print_doi "\x7d\x7d\x7d" := by
  decide

/-- C7 (amended): `print_doi` is idempotent on an output that is truly in
post-reformat shape — one containing no further `DOI_FMT` field-boundary
match and no remaining "\x7d\x7d" occurrence.  (A once-reformatted string
can violate either condition — see the counterexample — and is then
changed again by the second pass.) -/
theorem c7_idempotent_of_stable (s : String)
    (h1 : findMatchList DOI_FMT (print_doi s).data = none)
    (h2 : containsSub (print_doi s).data ['\x7d', '\x7d'] = false) :
    print_doi (print_doi s) = print_doi s := by
  have hdata : (print_doi s).data =
      replaceBrace (replaceAllFMTGo (trimChars s.data).length
        (trimChars s.data)) := rfl
  have hhead : ∀ c, (print_doi s).data.head? = some c →
      c.isWhitespace = false := by
    intro c hc
    rw [hdata, replaceBrace_head?, replaceAllFMTGo_head?] at hc
    exact trimChars_head?_not_ws _ _ hc
  have hlast : ∀ c, (print_doi s).data.getLast? = some c →
      c.isWhitespace = false := by
    intro c hc
    rw [hdata, replaceBrace_getLast?,
      replaceAllFMTGo_getLast? _ _ (le_refl _)] at hc
    exact trimChars_getLast?_not_ws _ _ hc
  have htrim : trimChars (print_doi s).data = (print_doi s).data :=
    trimChars_eq_self _ hhead hlast
  apply String.ext
  show (print_doi (print_doi s)).data = (print_doi s).data
  have hstep : (print_doi (print_doi s)).data =
      replaceBrace (replaceAllFMT (trimChars (print_doi s).data)) := rfl
  rw [hstep, htrim, replaceAllFMT, replaceAllFMTGo_no_match _ _ h1,
    replaceBrace_no_brace _ h2]

/-- Closed instance of C7 (amended) at a concrete record whose reformatted
output has no further boundary match and no "\x7d\x7d". -/
theorem c7_witness :
    print_doi (print_doi "@article\x7ba_1,title=\x7bT\x7d\x7d") =
      print_doi "@article\x7ba_1,title=\x7bT\x7d\x7d" :=
  c7_idempotent_of_stable _ (by decide) (by decide)

end D2b

